import Mathlib

/-!
Verification development for the interop plot-aggregation engine.

The development shallowly embeds the two core headers,
`interop/logic/plot/plot_by_lane.h` and
`interop/logic/plot/plot_qscore_heatmap.h`, together with the data model
they consume.  Machine floats are modelled by the rationals, with the
"NaN as missing" convention reified as `Option ℚ` (a proxy returning
`none` stands for a NaN value).  External collaborators that are not part
of the sources (the metric value proxy, `plot_candle_stick`, `auto_scale`,
the by-lane aggregator, the enum parser) enter as function parameters or
as definitions modelled from the spec, each marked as such.
-/

namespace Interop

/-- Metric type tags from `constants/enums.h`; only the tags that the
by-lane engine inspects are distinguished, every other tag is carried
by `otherMetric`. -/
inductive MetricType where
  | clusterCount
  | clusterCountPF
  | density
  | densityPF
  | percentPhasing
  | percentPrephasing
  | otherMetric (n : Nat)
deriving DecidableEq

/-- A tile metric record: `(lane, tile)` plus scalar channels.  The
channels are reached only through the external proxy, so the record keeps
a `payload` field available for instantiating the proxy in examples. -/
structure TileRecord where
  lane : Nat
  tile : Nat
  payload : MetricType → Option ℚ

/-- A set of tile metric records with its `max_lane` metadata. -/
structure TileMetricSet where
  records : List TileRecord
  maxLane : Nat

/-- Modulus of the C++ unsigned index arithmetic: `b->lane()-1` is an
unsigned subtraction whose result is converted to `size_t`, so a lane of
`0` wraps around to `2^64 - 1`. -/
def idxMod : Nat := 2 ^ 64

/-- The vector index `b->lane()-1` computed with the wrap-around of the
source's unsigned arithmetic. -/
def laneIndex (lane : Nat) : Nat := (lane + (idxMod - 1)) % idxMod

/-- Append `v` to the bucket at index `i`; an out-of-range index leaves
the bucket vector unchanged (claim C10 shows the in-range precondition
under which this branch is never taken). -/
def pushBucket (bs : List (List ℚ)) (i : Nat) (v : ℚ) : List (List ℚ) :=
  bs.set i (bs.getD i [] ++ [v])

/-- One iteration of the record loop of `populate_candle_stick_by_lane`:
skip the record when `valid_tile` rejects it, skip when the proxy value is
NaN (`none`), otherwise push the value onto bucket `lane - 1`. -/
def bucketStep (valid : TileRecord → Bool) (proxy : TileRecord → MetricType → Option ℚ)
    (tp : MetricType) (bs : List (List ℚ)) (r : TileRecord) : List (List ℚ) :=
  if valid r then
    match proxy r tp with
    | some v => pushBucket bs (laneIndex r.lane) v
    | none => bs
  else bs

/-- The lane buckets built by the record loop of
`populate_candle_stick_by_lane` (lines 40-51 of `plot_by_lane.h`). -/
def laneBuckets (valid : TileRecord → Bool) (proxy : TileRecord → MetricType → Option ℚ)
    (tp : MetricType) (records : List TileRecord) (laneCount : Nat) : List (List ℚ) :=
  records.foldl (bucketStep valid proxy tp) (List.replicate laneCount [])

/-- One iteration of the record loop with the vector indexing made
explicit: the access `tile_by_lane[b->lane()-1]` is checked and the step
returns `none` when the index is out of bounds. -/
def bucketStepChecked (valid : TileRecord → Bool) (proxy : TileRecord → MetricType → Option ℚ)
    (tp : MetricType) (bs : List (List ℚ)) (r : TileRecord) : Option (List (List ℚ)) :=
  if valid r then
    match proxy r tp with
    | some v =>
        if laneIndex r.lane < bs.length then some (pushBucket bs (laneIndex r.lane) v)
        else none
    | none => some bs
  else some bs

/-- The record loop of `populate_candle_stick_by_lane` with checked
indexing: `none` exactly when some push lands out of bounds. -/
def laneBucketsChecked (valid : TileRecord → Bool) (proxy : TileRecord → MetricType → Option ℚ)
    (tp : MetricType) (records : List TileRecord) (laneCount : Nat) : Option (List (List ℚ)) :=
  records.foldlM (bucketStepChecked valid proxy tp) (List.replicate laneCount [])

/-- The emission loop of `populate_candle_stick_by_lane` (lines 52-61):
walk the buckets in lane order, skip empty buckets, and emit one candle
point at x = 1-based lane for each non-empty bucket.  `cs` is the external
`plot_candle_stick` reduction, taken as a parameter; the `resize`/`offset`
packing of the source is rendered as emitting into a densely packed
list. -/
def emitPointsFrom {P : Type} (cs : List ℚ → ℚ → P) (lane1 : Nat) :
    List (List ℚ) → List P
  | [] => []
  | b :: rest =>
      if b.isEmpty then emitPointsFrom cs (lane1 + 1) rest
      else cs b (lane1 : ℚ) :: emitPointsFrom cs (lane1 + 1) rest

/-- `populate_candle_stick_by_lane` (lines 31-62 of `plot_by_lane.h`),
parameterized over the external candle-stick reduction `cs` and the
external proxy and filter predicates. -/
def populate_candle_stick_by_lane {P : Type} (cs : List ℚ → ℚ → P)
    (proxy : TileRecord → MetricType → Option ℚ) (valid : TileRecord → Bool)
    (tp : MetricType) (ms : TileMetricSet) : List P :=
  emitPointsFrom cs 1 (laneBuckets valid proxy tp ms.records ms.maxLane)

/-- The multiset (kept in record order) of non-NaN proxy values of the
records of lane `lane` that pass the filter; this is the reference
characterisation that the loop is proved to realise. -/
def laneValues (valid : TileRecord → Bool) (proxy : TileRecord → MetricType → Option ℚ)
    (tp : MetricType) (records : List TileRecord) (lane : Nat) : List ℚ :=
  records.filterMap (fun r => if valid r = true ∧ r.lane = lane then proxy r tp else none)

theorem laneIndex_eq_sub_one {l : Nat} (h1 : 1 ≤ l) (h2 : l ≤ idxMod) :
    laneIndex l = l - 1 := by
  unfold laneIndex idxMod at *
  omega

theorem pushBucket_length (bs : List (List ℚ)) (i : Nat) (v : ℚ) :
    (pushBucket bs i v).length = bs.length := List.length_set ..

theorem pushBucket_getD_eq (bs : List (List ℚ)) {i : Nat} (v : ℚ) (h : i < bs.length) :
    (pushBucket bs i v).getD i [] = bs.getD i [] ++ [v] := by
  simp [pushBucket, List.getD, List.getElem?_set_self, h]

theorem pushBucket_getD_ne (bs : List (List ℚ)) {i j : Nat} (v : ℚ) (h : i ≠ j) :
    (pushBucket bs i v).getD j [] = bs.getD j [] := by
  simp [pushBucket, List.getD, List.getElem?_set_ne h]

theorem bucketStep_skip_invalid {valid : TileRecord → Bool}
    {proxy : TileRecord → MetricType → Option ℚ} {tp : MetricType}
    {bs : List (List ℚ)} {r : TileRecord} (h : valid r = false) :
    bucketStep valid proxy tp bs r = bs := by
  simp [bucketStep, h]

theorem bucketStep_skip_nan {valid : TileRecord → Bool}
    {proxy : TileRecord → MetricType → Option ℚ} {tp : MetricType}
    {bs : List (List ℚ)} {r : TileRecord} (h : valid r = true)
    (hp : proxy r tp = none) :
    bucketStep valid proxy tp bs r = bs := by
  simp [bucketStep, h, hp]

theorem bucketStep_push {valid : TileRecord → Bool}
    {proxy : TileRecord → MetricType → Option ℚ} {tp : MetricType}
    {bs : List (List ℚ)} {r : TileRecord} {v : ℚ} (h : valid r = true)
    (hp : proxy r tp = some v) :
    bucketStep valid proxy tp bs r = pushBucket bs (laneIndex r.lane) v := by
  simp [bucketStep, h, hp]

theorem foldl_bucketStep_spec (valid : TileRecord → Bool)
    (proxy : TileRecord → MetricType → Option ℚ) (tp : MetricType) :
    ∀ (rs : List TileRecord) (bs : List (List ℚ)),
      (∀ r ∈ rs, 1 ≤ r.lane ∧ r.lane ≤ bs.length) → bs.length ≤ idxMod →
      (rs.foldl (bucketStep valid proxy tp) bs).length = bs.length ∧
      ∀ i, i < bs.length →
        (rs.foldl (bucketStep valid proxy tp) bs).getD i [] =
          bs.getD i [] ++ laneValues valid proxy tp rs (i + 1) := by
  intro rs
  induction rs with
  | nil => intro bs _ _; simp [laneValues]
  | cons r rest ih =>
    intro bs hlanes hmod
    have hr := hlanes r (by simp)
    have hrest : ∀ x ∈ rest, 1 ≤ x.lane ∧ x.lane ≤ bs.length :=
      fun x hx => hlanes x (by simp [hx])
    rw [List.foldl_cons]
    by_cases hv : valid r = true
    · cases hp : proxy r tp with
      | none =>
        rw [bucketStep_skip_nan hv hp]
        have hres := ih bs hrest hmod
        refine ⟨hres.1, fun i hi => ?_⟩
        rw [hres.2 i hi]
        have : laneValues valid proxy tp (r :: rest) (i + 1) =
            laneValues valid proxy tp rest (i + 1) := by
          unfold laneValues
          rw [List.filterMap_cons]
          by_cases hc : valid r = true ∧ r.lane = i + 1
          · simp [hc, hp]
          · simp [if_neg hc]
        rw [this]
      | some v =>
        have hlidx : laneIndex r.lane = r.lane - 1 :=
          laneIndex_eq_sub_one hr.1 (le_trans hr.2 hmod)
        rw [bucketStep_push hv hp, hlidx]
        have hlen' : (pushBucket bs (r.lane - 1) v).length = bs.length :=
          pushBucket_length ..
        have hrest' : ∀ x ∈ rest, 1 ≤ x.lane ∧ x.lane ≤ (pushBucket bs (r.lane - 1) v).length := by
          rw [hlen']; exact hrest
        have hres := ih (pushBucket bs (r.lane - 1) v) hrest' (by rw [hlen']; exact hmod)
        refine ⟨hres.1.trans hlen', fun i hi => ?_⟩
        rw [hres.2 i (by rw [hlen']; exact hi)]
        by_cases hEq : r.lane = i + 1
        · have hidx : r.lane - 1 = i := by omega
          rw [hidx, pushBucket_getD_eq bs v hi]
          have : laneValues valid proxy tp (r :: rest) (i + 1) =
              v :: laneValues valid proxy tp rest (i + 1) := by
            unfold laneValues
            rw [List.filterMap_cons]
            simp [hv, hEq, hp]
          rw [this, List.append_assoc]
          rfl
        · have hidx : r.lane - 1 ≠ i := by omega
          rw [pushBucket_getD_ne bs v hidx]
          have : laneValues valid proxy tp (r :: rest) (i + 1) =
              laneValues valid proxy tp rest (i + 1) := by
            unfold laneValues
            rw [List.filterMap_cons]
            have hc : ¬(valid r = true ∧ r.lane = i + 1) := by
              intro hcc; exact hEq hcc.2
            simp [if_neg hc]
          rw [this]
    · rw [bucketStep_skip_invalid (by simpa using hv)]
      have hres := ih bs hrest hmod
      refine ⟨hres.1, fun i hi => ?_⟩
      rw [hres.2 i hi]
      have : laneValues valid proxy tp (r :: rest) (i + 1) =
          laneValues valid proxy tp rest (i + 1) := by
        unfold laneValues
        rw [List.filterMap_cons]
        have hc : ¬(valid r = true ∧ r.lane = i + 1) := by
          intro hcc; rw [hcc.1] at hv; exact hv rfl
        simp [if_neg hc]
      rw [this]

theorem laneBuckets_length (valid : TileRecord → Bool)
    (proxy : TileRecord → MetricType → Option ℚ) (tp : MetricType)
    (records : List TileRecord) (laneCount : Nat)
    (hlanes : ∀ r ∈ records, 1 ≤ r.lane ∧ r.lane ≤ laneCount)
    (hmod : laneCount ≤ idxMod) :
    (laneBuckets valid proxy tp records laneCount).length = laneCount := by
  unfold laneBuckets
  have := foldl_bucketStep_spec valid proxy tp records (List.replicate laneCount [])
    (by simpa using hlanes) (by simpa using hmod)
  simpa using this.1

theorem laneBuckets_getD (valid : TileRecord → Bool)
    (proxy : TileRecord → MetricType → Option ℚ) (tp : MetricType)
    (records : List TileRecord) (laneCount : Nat) (i : Nat)
    (hlanes : ∀ r ∈ records, 1 ≤ r.lane ∧ r.lane ≤ laneCount)
    (hmod : laneCount ≤ idxMod) (hi : i < laneCount) :
    (laneBuckets valid proxy tp records laneCount).getD i [] =
      laneValues valid proxy tp records (i + 1) := by
  unfold laneBuckets
  have hspec := foldl_bucketStep_spec valid proxy tp records (List.replicate laneCount [])
    (by simpa using hlanes) (by simpa using hmod)
  have := hspec.2 i (by simpa using hi)
  rw [this]
  have hrep : (List.replicate laneCount ([] : List ℚ)).getD i [] = [] := by
    simp [List.getD, List.getElem?_replicate, hi]
  rw [hrep]
  rfl

theorem emitPointsFrom_eq_filterMap {P : Type} (cs : List ℚ → ℚ → P) :
    ∀ (bs : List (List ℚ)) (k : Nat),
      emitPointsFrom cs k bs = (List.range bs.length).filterMap
        (fun i => if (bs.getD i []).isEmpty then none
                  else some (cs (bs.getD i []) ((k + i : Nat) : ℚ))) := by
  intro bs
  induction bs with
  | nil => intro k; simp [emitPointsFrom]
  | cons b rest ih =>
    intro k
    rw [emitPointsFrom]
    rw [List.length_cons, List.range_succ_eq_map, List.filterMap_cons, List.filterMap_map]
    have hfun : ∀ i, ((fun i => if ((b :: rest).getD i []).isEmpty then none
          else some (cs ((b :: rest).getD i []) ((k + i : Nat) : ℚ))) ∘ (· + 1)) i =
        (fun i => if (rest.getD i []).isEmpty then none
          else some (cs (rest.getD i []) (((k + 1) + i : Nat) : ℚ))) i := by
      intro i
      simp only [Function.comp_apply, List.getD_cons_succ]
      have : k + (i + 1) = (k + 1) + i := by omega
      rw [this]
    rw [funext hfun, ← ih (k + 1)]
    simp only [List.getD_cons_zero, Nat.add_zero]
    by_cases hb : b.isEmpty
    · simp [hb]
    · simp [hb]

/-- C1: `populate_candle_stick_by_lane` emits, in increasing lane order
and densely packed, exactly one point per lane that has at least one
record passing `options.valid_tile` with a non-NaN proxy value; the point
sits at x = the 1-based lane number and its candle stick is computed over
exactly the list of non-NaN proxy values of the passing records of that
lane.  The hypotheses state that every record's lane is in
`[1, max_lane]` (claim C10 shows the indexing requires this) and that the
lane count fits the unsigned index arithmetic. -/
theorem populate_candle_stick_by_lane_emission {P : Type} (cs : List ℚ → ℚ → P)
    (proxy : TileRecord → MetricType → Option ℚ) (valid : TileRecord → Bool)
    (tp : MetricType) (ms : TileMetricSet)
    (hlanes : ∀ r ∈ ms.records, 1 ≤ r.lane ∧ r.lane ≤ ms.maxLane)
    (hmod : ms.maxLane ≤ idxMod) :
    populate_candle_stick_by_lane cs proxy valid tp ms =
      (List.range ms.maxLane).filterMap (fun i =>
        if (laneValues valid proxy tp ms.records (i + 1)).isEmpty then none
        else some (cs (laneValues valid proxy tp ms.records (i + 1)) ((i + 1 : Nat) : ℚ))) := by
  unfold populate_candle_stick_by_lane
  rw [emitPointsFrom_eq_filterMap]
  rw [laneBuckets_length valid proxy tp ms.records ms.maxLane hlanes hmod]
  apply List.filterMap_congr
  intro i hi
  have hilt : i < ms.maxLane := List.mem_range.mp hi
  rw [laneBuckets_getD valid proxy tp ms.records ms.maxLane i hlanes hmod hilt]
  have : (1 + i : Nat) = i + 1 := by omega
  rw [this]

theorem bucketStepChecked_skip_invalid {valid : TileRecord → Bool}
    {proxy : TileRecord → MetricType → Option ℚ} {tp : MetricType}
    {bs : List (List ℚ)} {r : TileRecord} (h : valid r = false) :
    bucketStepChecked valid proxy tp bs r = some bs := by
  simp [bucketStepChecked, h]

theorem bucketStepChecked_skip_nan {valid : TileRecord → Bool}
    {proxy : TileRecord → MetricType → Option ℚ} {tp : MetricType}
    {bs : List (List ℚ)} {r : TileRecord} (h : valid r = true)
    (hp : proxy r tp = none) :
    bucketStepChecked valid proxy tp bs r = some bs := by
  simp [bucketStepChecked, h, hp]

theorem bucketStepChecked_push {valid : TileRecord → Bool}
    {proxy : TileRecord → MetricType → Option ℚ} {tp : MetricType}
    {bs : List (List ℚ)} {r : TileRecord} {v : ℚ} (h : valid r = true)
    (hp : proxy r tp = some v) :
    bucketStepChecked valid proxy tp bs r =
      if laneIndex r.lane < bs.length then some (pushBucket bs (laneIndex r.lane) v)
      else none := by
  simp [bucketStepChecked, h, hp]

theorem bucketStepChecked_length {valid : TileRecord → Bool}
    {proxy : TileRecord → MetricType → Option ℚ} {tp : MetricType}
    {bs bs' : List (List ℚ)} {r : TileRecord}
    (h : bucketStepChecked valid proxy tp bs r = some bs') :
    bs'.length = bs.length := by
  by_cases hv : valid r = true
  · cases hp : proxy r tp with
    | none => rw [bucketStepChecked_skip_nan hv hp] at h; cases h; rfl
    | some v =>
      rw [bucketStepChecked_push hv hp] at h
      by_cases hlt : laneIndex r.lane < bs.length
      · rw [if_pos hlt] at h
        cases h
        exact pushBucket_length ..
      · rw [if_neg hlt] at h; cases h
  · rw [bucketStepChecked_skip_invalid (by simpa using hv)] at h; cases h; rfl

theorem foldlM_bucketStepChecked_some (valid : TileRecord → Bool)
    (proxy : TileRecord → MetricType → Option ℚ) (tp : MetricType) :
    ∀ (rs : List TileRecord) (bs : List (List ℚ)),
      (∀ r ∈ rs, 1 ≤ r.lane ∧ r.lane ≤ bs.length) → bs.length ≤ idxMod →
      rs.foldlM (bucketStepChecked valid proxy tp) bs =
        some (rs.foldl (bucketStep valid proxy tp) bs) := by
  intro rs
  induction rs with
  | nil => intro bs _ _; rfl
  | cons r rest ih =>
    intro bs hlanes hmod
    have hr := hlanes r (by simp)
    have hrest : ∀ x ∈ rest, 1 ≤ x.lane ∧ x.lane ≤ bs.length :=
      fun x hx => hlanes x (by simp [hx])
    rw [List.foldlM_cons, List.foldl_cons]
    by_cases hv : valid r = true
    · cases hp : proxy r tp with
      | none =>
        rw [bucketStepChecked_skip_nan hv hp, bucketStep_skip_nan hv hp]
        simpa using ih bs hrest hmod
      | some v =>
        have hlt : laneIndex r.lane < bs.length := by
          rw [laneIndex_eq_sub_one hr.1 (le_trans hr.2 hmod)]
          omega
        rw [bucketStepChecked_push hv hp, if_pos hlt, bucketStep_push hv hp]
        have hlen : (pushBucket bs (laneIndex r.lane) v).length = bs.length :=
          pushBucket_length ..
        have hrest' : ∀ x ∈ rest, 1 ≤ x.lane ∧
            x.lane ≤ (pushBucket bs (laneIndex r.lane) v).length := by
          rw [hlen]; exact hrest
        simpa using ih (pushBucket bs (laneIndex r.lane) v) hrest' (by rw [hlen]; exact hmod)
    · rw [bucketStepChecked_skip_invalid (by simpa using hv),
        bucketStep_skip_invalid (by simpa using hv)]
      simpa using ih bs hrest hmod

theorem foldlM_bucketStepChecked_none (valid : TileRecord → Bool)
    (proxy : TileRecord → MetricType → Option ℚ) (tp : MetricType) {v : ℚ} :
    ∀ (rs : List TileRecord) (bs : List (List ℚ)) (r : TileRecord),
      r ∈ rs → valid r = true → proxy r tp = some v → bs.length ≤ laneIndex r.lane →
      rs.foldlM (bucketStepChecked valid proxy tp) bs = none := by
  intro rs
  induction rs with
  | nil => intro bs r hr; cases hr
  | cons a rest ih =>
    intro bs r hr hv hp hoob
    rw [List.foldlM_cons]
    rcases List.mem_cons.mp hr with heq | hmem
    · subst heq
      rw [bucketStepChecked_push hv hp, if_neg (by omega : ¬laneIndex r.lane < bs.length)]
      rfl
    · cases hstep : bucketStepChecked valid proxy tp bs a with
      | none => rfl
      | some bs' =>
        have hlen := bucketStepChecked_length hstep
        simpa using ih bs' r hmem hv hp (by rw [hlen]; exact hoob)

/-- C10: the unchecked indexing `tile_by_lane[b->lane()-1]` of
`populate_candle_stick_by_lane` is safe exactly under the 1-based lane
precondition: when every record's lane lies in `[1, max_lane]` the checked
rendering of the loop never takes its out-of-bounds branch, while a single
passing record with lane `0` (which wraps to `2^64 - 1`) or with lane
greater than `max_lane` drives the checked loop out of bounds. -/
theorem populate_candle_stick_by_lane_index_safety
    (proxy : TileRecord → MetricType → Option ℚ) (valid : TileRecord → Bool)
    (tp : MetricType) (ms : TileMetricSet) :
    ((∀ r ∈ ms.records, 1 ≤ r.lane ∧ r.lane ≤ ms.maxLane) → ms.maxLane ≤ idxMod →
      (laneBucketsChecked valid proxy tp ms.records ms.maxLane).isSome = true) ∧
    (∀ r ∈ ms.records, valid r = true → ∀ v, proxy r tp = some v →
      (r.lane = 0 ∨ (ms.maxLane < r.lane ∧ r.lane ≤ idxMod)) → ms.maxLane < idxMod →
      laneBucketsChecked valid proxy tp ms.records ms.maxLane = none) := by
  constructor
  · intro h1 h2
    unfold laneBucketsChecked
    rw [foldlM_bucketStepChecked_some valid proxy tp ms.records (List.replicate ms.maxLane [])
      (by simpa using h1) (by simpa using h2)]
    rfl
  · intro r hr hv v hp hbad hml
    have hidx : ms.maxLane ≤ laneIndex r.lane := by
      rcases hbad with h0 | ⟨hgt, hle⟩
      · rw [h0]; unfold laneIndex idxMod
        unfold idxMod at hml
        omega
      · rw [laneIndex_eq_sub_one (by omega) hle]; omega
    exact foldlM_bucketStepChecked_none valid proxy tp ms.records
      (List.replicate ms.maxLane []) r hr hv hp (by simpa using hidx)

/-- Concrete candle-stick reduction used by the C1 witness. -/
def w1cs : List ℚ → ℚ → ℚ := fun l x => x + l.sum

/-- Concrete proxy used by the C1 witness: read the record's payload. -/
def w1proxy : TileRecord → MetricType → Option ℚ := fun r t => r.payload t

/-- Concrete tile-metric set used by the C1 witness: two records on
lane 1, one on lane 3, none on lane 2. -/
def w1ms : TileMetricSet :=
  ⟨[⟨1, 1, fun _ => some 2⟩, ⟨1, 2, fun _ => some 4⟩, ⟨3, 1, fun _ => some 6⟩], 3⟩

theorem populate_candle_stick_by_lane_emission_witness :
    ((∀ r ∈ w1ms.records, 1 ≤ r.lane ∧ r.lane ≤ w1ms.maxLane) ∧ w1ms.maxLane ≤ idxMod) ∧
    populate_candle_stick_by_lane w1cs w1proxy (fun _ => true) MetricType.density w1ms =
      (List.range w1ms.maxLane).filterMap (fun i =>
        if (laneValues (fun _ => true) w1proxy MetricType.density w1ms.records (i + 1)).isEmpty
        then none
        else some (w1cs (laneValues (fun _ => true) w1proxy MetricType.density w1ms.records (i + 1))
          ((i + 1 : Nat) : ℚ))) :=
  ⟨⟨by decide, by decide⟩,
    populate_candle_stick_by_lane_emission w1cs w1proxy (fun _ => true) MetricType.density w1ms
      (by decide) (by decide)⟩

/-- Record with lane 0 used by the C10 witness. -/
def w10r : TileRecord := ⟨0, 1, fun _ => none⟩

/-- Proxy used by the C10 witness. -/
def w10proxy : TileRecord → MetricType → Option ℚ := fun _ _ => some 7

/-- Well-formed tile-metric set for the C10 witness. -/
def w10good : TileMetricSet := ⟨[⟨1, 1, fun _ => none⟩, ⟨2, 1, fun _ => none⟩], 2⟩

/-- Tile-metric set with a lane-0 record for the C10 witness. -/
def w10bad : TileMetricSet := ⟨[w10r], 2⟩

theorem populate_candle_stick_by_lane_index_safety_witness :
    (laneBucketsChecked (fun _ => true) w10proxy MetricType.density
        w10good.records w10good.maxLane).isSome = true ∧
    laneBucketsChecked (fun _ => true) w10proxy MetricType.density
        w10bad.records w10bad.maxLane = none :=
  ⟨(populate_candle_stick_by_lane_index_safety w10proxy (fun _ => true) MetricType.density
      w10good).1 (by decide) (by decide),
   (populate_candle_stick_by_lane_index_safety w10proxy (fun _ => true) MetricType.density
      w10bad).2 w10r (List.mem_cons_self ..) rfl 7 rfl (Or.inl rfl) (by decide)⟩

/-- A q-score bin `(lower, upper, value)`, all 1-based inclusive, from the
q-metric compression schema. -/
structure QBin where
  lower : Nat
  upper : Nat
  value : Nat
deriving DecidableEq

/-- A q-metric record: `(lane, tile, cycle)` plus a histogram of counts,
indexed by score (uncompressed) or by bin index (compressed).
`qscore_hist(i)` is `hist.getD i 0` and `size()` is `hist.length`. -/
structure QRecord where
  lane : Nat
  tile : Nat
  cycle : Nat
  hist : List ℚ
deriving DecidableEq

/-- A set of q-metric records with its metadata: `max_cycle`, the bins of
the compression schema and the compression flag. -/
structure QMetricSet where
  records : List QRecord
  maxCycle : Nat
  bins : List QBin
  compressed : Bool
deriving DecidableEq

/-- The heatmap plot-data shell: a dense `row × column` matrix of cells
plus axis ranges, labels and a title. The cell buffer is modelled as a
total function; all source accesses proved about here stay inside
`[0, rowCount) × [0, columnCount)`. -/
structure HeatmapData where
  rowCount : Nat
  columnCount : Nat
  cell : Nat → Nat → ℚ
  xRange : ℚ × ℚ
  yRange : ℚ × ℚ
  xLabel : String
  yLabel : String
  title : String

/-- Write `v` into cell `(r, c)`. -/
def setCell (g : HeatmapData) (r c : Nat) (v : ℚ) : HeatmapData :=
  { g with cell := fun r' c' => if r' = r ∧ c' = c then v else g.cell r' c' }

/-- The increment `data(r, c) += v` of the fold loops. -/
def addCell (g : HeatmapData) (r c : Nat) (v : ℚ) : HeatmapData :=
  setCell g r c (g.cell r c + v)

/-- `populate_heatmap_from_compressed` (lines 31-44 of
`plot_qscore_heatmap.h`): for each record passing `valid_tile`, for each
bin index, add `qscore_hist(bin)` to `M[cycle-1, bins[bin].value-1]`. -/
def populate_heatmap_from_compressed (bins : List QBin) (valid : QRecord → Bool)
    (records : List QRecord) (g : HeatmapData) : HeatmapData :=
  records.foldl (fun g r =>
    if valid r then
      (List.range bins.length).foldl (fun g bi =>
        addCell g (r.cycle - 1) ((bins.getD bi ⟨0, 0, 0⟩).value - 1) (r.hist.getD bi 0)) g
    else g) g

/-- `populate_heatmap_from_uncompressed` (lines 52-65): for each record
passing `valid_tile`, for each score index below the record's size, add
`qscore_hist(bin)` to `M[cycle-1, bin]`. -/
def populate_heatmap_from_uncompressed (valid : QRecord → Bool)
    (records : List QRecord) (g : HeatmapData) : HeatmapData :=
  records.foldl (fun g r =>
    if valid r then
      (List.range r.hist.length).foldl (fun g bi =>
        addCell g (r.cycle - 1) bi (r.hist.getD bi 0)) g
    else g) g

/-- The encoding dispatch of `populate_heatmap` (lines 118-129). -/
def populate_fold (ms : QMetricSet) (valid : QRecord → Bool) (g : HeatmapData) : HeatmapData :=
  if ms.compressed then populate_heatmap_from_compressed ms.bins valid ms.records g
  else populate_heatmap_from_uncompressed valid ms.records g

/-- The running maximum of `normalize_heatmap` (lines 72-75): a fold of
`max` over all cells starting from `0`. -/
def gridMax (g : HeatmapData) : ℚ :=
  (List.range g.rowCount).foldl
    (fun m r => (List.range g.columnCount).foldl (fun m c => max m (g.cell r c)) m) 0

/-- `normalize_heatmap` (lines 70-79): rewrite every cell of the grid to
`100 * cell / max_value`.  Each iteration of the source's double loop
reads only the cell it overwrites, so the loop is rendered pointwise. -/
def normalize_heatmap (g : HeatmapData) : HeatmapData :=
  { g with cell := fun r c =>
      if r < g.rowCount ∧ c < g.columnCount then 100 * g.cell r c / gridMax g
      else g.cell r c }

/-- The loop lower bound `std::max(0, beg->lower()-1)` of `remap_to_bins`,
computed in signed arithmetic as in the source. -/
def binLowerIdx (b : QBin) : Nat := (max 0 ((b.lower : Int) - 1)).toNat

/-- The inner cycle loop of `remap_to_bins` (lines 95-98): for every cycle
row, copy the representative column `value-1` into column `col`. -/
def remapCycles (maxCycle : Nat) (col vcol : Nat) (g : HeatmapData) : HeatmapData :=
  (List.range maxCycle).foldl (fun g cyc => setCell g cyc col (g.cell cyc vcol)) g

/-- The per-bin column loop of `remap_to_bins` (lines 93-99). -/
def remapBin (maxCycle : Nat) (b : QBin) (g : HeatmapData) : HeatmapData :=
  (List.range' (binLowerIdx b) (b.upper - binLowerIdx b)).foldl
    (fun g col => remapCycles maxCycle col (b.value - 1) g) g

/-- `remap_to_bins` (lines 88-101 of `plot_qscore_heatmap.h`). -/
def remap_to_bins (bins : List QBin) (maxCycle : Nat) (g : HeatmapData) : HeatmapData :=
  bins.foldl (fun g b => remapBin maxCycle b g) g

/-- Sum of all in-range cells of the grid (the observer of claims C4). -/
def gridSum (g : HeatmapData) : ℚ :=
  ∑ r ∈ Finset.range g.rowCount, ∑ c ∈ Finset.range g.columnCount, g.cell r c

theorem setCell_rowCount (g : HeatmapData) (r c : Nat) (v : ℚ) :
    (setCell g r c v).rowCount = g.rowCount := rfl

theorem setCell_columnCount (g : HeatmapData) (r c : Nat) (v : ℚ) :
    (setCell g r c v).columnCount = g.columnCount := rfl

theorem setCell_cell (g : HeatmapData) (r c v r' c') :
    (setCell g r c v).cell r' c' = if r' = r ∧ c' = c then v else g.cell r' c' := rfl

theorem remapCycles_cell (col vcol : Nat) :
    ∀ (n : Nat) (g : HeatmapData) (r c : Nat),
      (remapCycles n col vcol g).cell r c =
        if r < n ∧ c = col then g.cell r vcol else g.cell r c := by
  intro n
  induction n with
  | zero => intro g r c; simp [remapCycles]
  | succ n ih =>
    intro g r c
    unfold remapCycles at ih ⊢
    rw [List.range_succ n, List.foldl_append, List.foldl_cons, List.foldl_nil]
    rw [setCell_cell, ih g r c, ih g n vcol]
    have hid : (if n < n ∧ vcol = col then g.cell n vcol else g.cell n vcol) = g.cell n vcol := by
      split <;> rfl
    rw [hid]
    by_cases h1 : r = n ∧ c = col
    · rw [if_pos h1, if_pos ⟨by omega, h1.2⟩, h1.1]
    · rw [if_neg h1]
      by_cases h2 : r < n ∧ c = col
      · rw [if_pos h2, if_pos ⟨by omega, h2.2⟩]
      · rw [if_neg h2, if_neg (by omega)]

theorem foldl_remapCycles_cols_cell (maxCycle vcol : Nat) :
    ∀ (cols : List Nat) (g : HeatmapData) (r c : Nat),
      (cols.foldl (fun g col => remapCycles maxCycle col vcol g) g).cell r c =
        if r < maxCycle ∧ c ∈ cols then g.cell r vcol else g.cell r c := by
  intro cols
  induction cols with
  | nil => intro g r c; simp
  | cons col rest ih =>
    intro g r c
    rw [List.foldl_cons, ih (remapCycles maxCycle col vcol g) r c]
    have hv : (remapCycles maxCycle col vcol g).cell r vcol = g.cell r vcol := by
      rw [remapCycles_cell]
      split <;> rfl
    rw [hv, remapCycles_cell]
    by_cases hmc : r < maxCycle
    · by_cases hrest : c ∈ rest
      · rw [if_pos ⟨hmc, hrest⟩, if_pos ⟨hmc, List.mem_cons_of_mem _ hrest⟩]
      · rw [if_neg (fun h => hrest h.2)]
        by_cases hcol : c = col
        · rw [if_pos ⟨hmc, hcol⟩,
            if_pos ⟨hmc, by rw [hcol]; exact List.mem_cons_self ..⟩]
        · rw [if_neg (fun h => hcol h.2),
            if_neg (fun h => (List.mem_cons.mp h.2).elim hcol hrest)]
    · rw [if_neg (fun h => hmc h.1), if_neg (fun h => hmc h.1), if_neg (fun h => hmc h.1)]

theorem remapBin_cell (maxCycle : Nat) (b : QBin) (g : HeatmapData) (r c : Nat) :
    (remapBin maxCycle b g).cell r c =
      if r < maxCycle ∧ (b.lower - 1 ≤ c ∧ c < b.upper) then g.cell r (b.value - 1)
      else g.cell r c := by
  unfold remapBin
  rw [foldl_remapCycles_cols_cell]
  have hlo : binLowerIdx b = b.lower - 1 := by
    unfold binLowerIdx
    omega
  have hmem : (c ∈ List.range' (binLowerIdx b) (b.upper - binLowerIdx b)) ↔
      (b.lower - 1 ≤ c ∧ c < b.upper) := by
    rw [List.mem_range'_1, hlo]
    omega
  exact if_congr (and_congr_right fun _ => hmem) rfl rfl

theorem remap_to_bins_cell_untouched (maxCycle : Nat) :
    ∀ (bins : List QBin) (g : HeatmapData) (r c : Nat),
      (∀ b ∈ bins, ¬(b.lower - 1 ≤ c ∧ c < b.upper)) →
      (remap_to_bins bins maxCycle g).cell r c = g.cell r c := by
  intro bins
  induction bins with
  | nil => intro g r c _; rfl
  | cons b0 rest ih =>
    intro g r c hnone
    unfold remap_to_bins at ih ⊢
    rw [List.foldl_cons]
    rw [ih (remapBin maxCycle b0 g) r c (fun b hb => hnone b (List.mem_cons_of_mem _ hb))]
    rw [remapBin_cell]
    rw [if_neg (fun h => hnone b0 (List.mem_cons_self ..) h.2)]

theorem remap_to_bins_expansion_aux (maxCycle : Nat) :
    ∀ (bins : List QBin) (g : HeatmapData),
      bins.Pairwise (fun x y => x.upper ≤ y.lower - 1 ∨ y.upper ≤ x.lower - 1) →
      (∀ x ∈ bins, 1 ≤ x.lower ∧ x.lower ≤ x.value ∧ x.value ≤ x.upper) →
      ∀ b ∈ bins, ∀ r, r < maxCycle → ∀ c, b.lower - 1 ≤ c → c < b.upper →
        (remap_to_bins bins maxCycle g).cell r c = g.cell r (b.value - 1) := by
  intro bins
  induction bins with
  | nil => intro g _ _ b hb; cases hb
  | cons b0 rest ih =>
    intro g hdisj hwf b hb r hr c hc1 hc2
    have hd0 := (List.pairwise_cons.mp hdisj).1
    have hdisj' := (List.pairwise_cons.mp hdisj).2
    have hwf' : ∀ x ∈ rest, 1 ≤ x.lower ∧ x.lower ≤ x.value ∧ x.value ≤ x.upper :=
      fun x hx => hwf x (List.mem_cons_of_mem _ hx)
    have hwf0 := hwf b0 (List.mem_cons_self ..)
    unfold remap_to_bins at ih ⊢
    rw [List.foldl_cons]
    rcases List.mem_cons.mp hb with heq | hmem
    · subst heq
      have hnone : ∀ b' ∈ rest, ¬(b'.lower - 1 ≤ c ∧ c < b'.upper) := by
        intro b' hb' hcc
        have hd := hd0 b' hb'
        have hw' := hwf' b' hb'
        omega
      have huntouched := remap_to_bins_cell_untouched maxCycle rest
        (remapBin maxCycle b g) r c hnone
      unfold remap_to_bins at huntouched
      rw [huntouched, remapBin_cell, if_pos ⟨hr, hc1, hc2⟩]
    · have hwb := hwf' b hmem
      rw [ih (remapBin maxCycle b0 g) hdisj' hwf' b hmem r hr c hc1 hc2]
      rw [remapBin_cell]
      have hd := hd0 b hmem
      rw [if_neg (by omega)]

/-- C2: after `remap_to_bins` runs over a grid with `max_cycle` rows with
bins whose ranges `[lower-1, upper)` are pairwise disjoint, `lower ≥ 1`
and `value ∈ [lower, upper]`, every cell of a bin's column range equals
the bin's representative column `value - 1` as it was before the call. -/
theorem remap_to_bins_bin_expansion (bins : List QBin) (maxCycle : Nat) (g : HeatmapData)
    (hdisj : bins.Pairwise (fun x y => x.upper ≤ y.lower - 1 ∨ y.upper ≤ x.lower - 1))
    (hwf : ∀ x ∈ bins, 1 ≤ x.lower ∧ x.lower ≤ x.value ∧ x.value ≤ x.upper)
    (b : QBin) (hb : b ∈ bins) (r : Nat) (hr : r < maxCycle)
    (c : Nat) (hc1 : b.lower - 1 ≤ c) (hc2 : c < b.upper) :
    (remap_to_bins bins maxCycle g).cell r c = g.cell r (b.value - 1) :=
  remap_to_bins_expansion_aux maxCycle bins g hdisj hwf b hb r hr c hc1 hc2

/-- Bins used by the C2 witness. -/
def w2bins : List QBin := [⟨1, 10, 5⟩, ⟨11, 20, 15⟩]

/-- Grid used by the C2 witness. -/
def w2g : HeatmapData :=
  ⟨2, 20, fun r c => ((r * 100 + c : Nat) : ℚ), (0, 0), (0, 0), "", "", ""⟩

theorem remap_to_bins_bin_expansion_witness :
    (w2bins.Pairwise (fun x y => x.upper ≤ y.lower - 1 ∨ y.upper ≤ x.lower - 1) ∧
      (∀ x ∈ w2bins, 1 ≤ x.lower ∧ x.lower ≤ x.value ∧ x.value ≤ x.upper)) ∧
    (remap_to_bins w2bins 2 w2g).cell 1 7 = w2g.cell 1 ((4 : Nat)) :=
  ⟨⟨by decide, by decide⟩,
    remap_to_bins_bin_expansion w2bins 2 w2g (by decide) (by decide)
      ⟨1, 10, 5⟩ (List.mem_cons_self ..) 1 (by decide) 7 (by decide) (by decide)⟩

theorem foldl_max_init_le (l : List ℚ) : ∀ init : ℚ, init ≤ l.foldl max init := by
  induction l with
  | nil => intro init; exact le_refl init
  | cons x rest ih =>
    intro init
    rw [List.foldl_cons]
    exact le_trans (le_max_left ..) (ih (max init x))

theorem foldl_max_mem_le (l : List ℚ) : ∀ (init x : ℚ), x ∈ l → x ≤ l.foldl max init := by
  induction l with
  | nil => intro init x hx; cases hx
  | cons a rest ih =>
    intro init x hx
    rw [List.foldl_cons]
    rcases List.mem_cons.mp hx with h | h
    · subst h
      exact le_trans (le_max_right ..) (foldl_max_init_le rest (max init x))
    · exact ih (max init a) x h

theorem foldl_max_eq_init_or_mem (l : List ℚ) :
    ∀ init : ℚ, l.foldl max init = init ∨ l.foldl max init ∈ l := by
  induction l with
  | nil => intro init; exact Or.inl rfl
  | cons a rest ih =>
    intro init
    rw [List.foldl_cons]
    rcases ih (max init a) with h | h
    · rw [h]
      rcases max_choice init a with h1 | h1
      · exact Or.inl h1
      · exact Or.inr (by rw [h1]; exact List.mem_cons_self ..)
    · exact Or.inr (List.mem_cons_of_mem _ h)

/-- The grid cells listed row by row; `gridMax` is a fold of `max` over
this list. -/
def gridCells (g : HeatmapData) : List ℚ :=
  ((List.range g.rowCount).map (fun r => (List.range g.columnCount).map (g.cell r))).flatten

theorem foldl_grid_eq_flatten (g : HeatmapData) (cols : List Nat) :
    ∀ (rows : List Nat) (init : ℚ),
      rows.foldl (fun m r => cols.foldl (fun m c => max m (g.cell r c)) m) init =
        ((rows.map (fun r => cols.map (g.cell r))).flatten).foldl max init := by
  intro rows
  induction rows with
  | nil => intro init; rfl
  | cons r rest ih =>
    intro init
    rw [List.foldl_cons, List.map_cons, List.flatten_cons, List.foldl_append, List.foldl_map]
    exact ih _

theorem gridMax_eq_foldl_cells (g : HeatmapData) :
    gridMax g = (gridCells g).foldl max 0 := by
  unfold gridMax gridCells
  exact foldl_grid_eq_flatten g (List.range g.columnCount) (List.range g.rowCount) 0

theorem mem_gridCells {g : HeatmapData} {x : ℚ} :
    x ∈ gridCells g ↔ ∃ r c, r < g.rowCount ∧ c < g.columnCount ∧ x = g.cell r c := by
  unfold gridCells
  simp only [List.mem_flatten, List.mem_map, List.mem_range]
  constructor
  · rintro ⟨l, ⟨r, hr, rfl⟩, hx⟩
    rcases List.mem_map.mp hx with ⟨c, hc, rfl⟩
    exact ⟨r, c, hr, List.mem_range.mp hc, rfl⟩
  · rintro ⟨r, c, hr, hc, rfl⟩
    exact ⟨(List.range g.columnCount).map (g.cell r), ⟨r, hr, rfl⟩,
      List.mem_map.mpr ⟨c, List.mem_range.mpr hc, rfl⟩⟩

theorem gridMax_nonneg (g : HeatmapData) : 0 ≤ gridMax g := by
  rw [gridMax_eq_foldl_cells]
  exact foldl_max_init_le _ 0

theorem cell_le_gridMax (g : HeatmapData) {r c : Nat}
    (hr : r < g.rowCount) (hc : c < g.columnCount) : g.cell r c ≤ gridMax g := by
  rw [gridMax_eq_foldl_cells]
  exact foldl_max_mem_le _ 0 _ (mem_gridCells.mpr ⟨r, c, hr, hc, rfl⟩)

theorem gridMax_attained (g : HeatmapData) :
    gridMax g = 0 ∨ ∃ r c, r < g.rowCount ∧ c < g.columnCount ∧ g.cell r c = gridMax g := by
  rcases foldl_max_eq_init_or_mem (gridCells g) 0 with h | h
  · exact Or.inl (by rw [gridMax_eq_foldl_cells]; exact h)
  · rcases mem_gridCells.mp h with ⟨r, c, hr, hc, hx⟩
    exact Or.inr ⟨r, c, hr, hc, by rw [← hx, gridMax_eq_foldl_cells]⟩

theorem normalize_heatmap_cell (g : HeatmapData) {r c : Nat}
    (hr : r < g.rowCount) (hc : c < g.columnCount) :
    (normalize_heatmap g).cell r c = 100 * g.cell r c / gridMax g := by
  unfold normalize_heatmap
  simp only []
  rw [if_pos ⟨hr, hc⟩]

/-- C3: on a grid whose in-range cells are non-negative and not all zero,
`normalize_heatmap` rewrites each cell to `100 * cell / max`, after which
some cell equals 100 and every cell lies in `[0, 100]`. -/
theorem normalize_heatmap_spec (g : HeatmapData)
    (hnn : ∀ r c, r < g.rowCount → c < g.columnCount → 0 ≤ g.cell r c)
    (hnz : ∃ r c, r < g.rowCount ∧ c < g.columnCount ∧ g.cell r c ≠ 0) :
    (∃ r c, r < g.rowCount ∧ c < g.columnCount ∧ (normalize_heatmap g).cell r c = 100) ∧
    (∀ r c, r < g.rowCount → c < g.columnCount →
      0 ≤ (normalize_heatmap g).cell r c ∧ (normalize_heatmap g).cell r c ≤ 100) ∧
    (∀ r c, r < g.rowCount → c < g.columnCount →
      (normalize_heatmap g).cell r c = 100 * g.cell r c / gridMax g) := by
  obtain ⟨r0, c0, hr0, hc0, hne⟩ := hnz
  have hpos : 0 < gridMax g :=
    lt_of_lt_of_le (lt_of_le_of_ne (hnn r0 c0 hr0 hc0) (Ne.symm hne))
      (cell_le_gridMax g hr0 hc0)
  refine ⟨?_, ?_, fun r c hr hc => normalize_heatmap_cell g hr hc⟩
  · rcases gridMax_attained g with h0 | ⟨r1, c1, hr1, hc1, heq⟩
    · exact absurd h0 (by intro hh; rw [hh] at hpos; exact lt_irrefl 0 hpos)
    · refine ⟨r1, c1, hr1, hc1, ?_⟩
      rw [normalize_heatmap_cell g hr1 hc1, heq]
      field_simp
  · intro r c hr hc
    rw [normalize_heatmap_cell g hr hc]
    constructor
    · exact div_nonneg (mul_nonneg (by norm_num) (hnn r c hr hc)) hpos.le
    · rw [div_le_iff₀ hpos]
      have := cell_le_gridMax g hr hc
      linarith

/-- Grid used by the C3 witness. -/
def w3g : HeatmapData :=
  ⟨2, 2, fun r c => ((r * 2 + c : Nat) : ℚ), (0, 0), (0, 0), "", "", ""⟩

theorem normalize_heatmap_spec_witness :
    ((∀ r c, r < w3g.rowCount → c < w3g.columnCount → 0 ≤ w3g.cell r c) ∧
      (∃ r c, r < w3g.rowCount ∧ c < w3g.columnCount ∧ w3g.cell r c ≠ 0)) ∧
    ((∃ r c, r < w3g.rowCount ∧ c < w3g.columnCount ∧ (normalize_heatmap w3g).cell r c = 100) ∧
      (∀ r c, r < w3g.rowCount → c < w3g.columnCount →
        0 ≤ (normalize_heatmap w3g).cell r c ∧ (normalize_heatmap w3g).cell r c ≤ 100) ∧
      (∀ r c, r < w3g.rowCount → c < w3g.columnCount →
        (normalize_heatmap w3g).cell r c = 100 * w3g.cell r c / gridMax w3g)) :=
  ⟨⟨fun _ c _ _ => Nat.cast_nonneg _,
    ⟨1, 1, by norm_num [w3g], by norm_num [w3g], by norm_num [w3g]⟩⟩,
    normalize_heatmap_spec w3g (fun _ c _ _ => Nat.cast_nonneg _)
      ⟨1, 1, by norm_num [w3g], by norm_num [w3g], by norm_num [w3g]⟩⟩

theorem addCell_rowCount (g : HeatmapData) (r c : Nat) (v : ℚ) :
    (addCell g r c v).rowCount = g.rowCount := rfl

theorem addCell_columnCount (g : HeatmapData) (r c : Nat) (v : ℚ) :
    (addCell g r c v).columnCount = g.columnCount := rfl

theorem gridSum_addCell (g : HeatmapData) {r c : Nat} (v : ℚ)
    (hr : r < g.rowCount) (hc : c < g.columnCount) :
    gridSum (addCell g r c v) = gridSum g + v := by
  unfold gridSum addCell setCell
  simp only []
  have hsummand : ∀ r' c', (if r' = r ∧ c' = c then g.cell r c + v else g.cell r' c') =
      g.cell r' c' + (if r' = r ∧ c' = c then v else 0) := by
    intro r' c'
    by_cases h : r' = r ∧ c' = c
    · rw [if_pos h, if_pos h, h.1, h.2]
    · rw [if_neg h, if_neg h, add_zero]
  have hrw : (∑ r' ∈ Finset.range g.rowCount, ∑ c' ∈ Finset.range g.columnCount,
        (if r' = r ∧ c' = c then g.cell r c + v else g.cell r' c')) =
      (∑ r' ∈ Finset.range g.rowCount, ∑ c' ∈ Finset.range g.columnCount,
        (g.cell r' c' + (if r' = r ∧ c' = c then v else 0))) := by
    apply Finset.sum_congr rfl
    intro r' _
    apply Finset.sum_congr rfl
    intro c' _
    exact hsummand r' c'
  rw [hrw]
  have hsplit : (∑ r' ∈ Finset.range g.rowCount, ∑ c' ∈ Finset.range g.columnCount,
        (g.cell r' c' + (if r' = r ∧ c' = c then v else 0))) =
      (∑ r' ∈ Finset.range g.rowCount, ∑ c' ∈ Finset.range g.columnCount, g.cell r' c') +
      (∑ r' ∈ Finset.range g.rowCount, ∑ c' ∈ Finset.range g.columnCount,
        (if r' = r ∧ c' = c then v else 0)) := by
    rw [← Finset.sum_add_distrib]
    apply Finset.sum_congr rfl
    intro r' _
    rw [← Finset.sum_add_distrib]
  rw [hsplit]
  congr 1
  have hinner : ∀ r', (∑ c' ∈ Finset.range g.columnCount,
      (if r' = r ∧ c' = c then v else 0)) = if r' = r then v else 0 := by
    intro r'
    by_cases h : r' = r
    · subst h
      have : ∀ c', (if r' = r' ∧ c' = c then v else 0) = if c' = c then v else 0 := by
        intro c'; by_cases hcc : c' = c <;> simp [hcc]
      rw [Finset.sum_congr rfl (fun c' _ => this c')]
      rw [Finset.sum_ite_eq' (Finset.range g.columnCount) c (fun _ => v)]
      rw [if_pos (Finset.mem_range.mpr hc)]
      simp
    · simp [h]
  rw [Finset.sum_congr rfl (fun r' _ => hinner r')]
  rw [Finset.sum_ite_eq' (Finset.range g.rowCount) r (fun _ => v)]
  rw [if_pos (Finset.mem_range.mpr hr)]

theorem foldl_addCell_counts {ι : Type} (row col : ι → Nat) (val : ι → ℚ) :
    ∀ (l : List ι) (g : HeatmapData),
      ((l.foldl (fun g i => addCell g (row i) (col i) (val i)) g)).rowCount = g.rowCount ∧
      ((l.foldl (fun g i => addCell g (row i) (col i) (val i)) g)).columnCount =
        g.columnCount := by
  intro l
  induction l with
  | nil => intro g; exact ⟨rfl, rfl⟩
  | cons i rest ih =>
    intro g
    rw [List.foldl_cons]
    exact ih (addCell g (row i) (col i) (val i))

theorem gridSum_foldl_addCell {ι : Type} (row col : ι → Nat) (val : ι → ℚ) :
    ∀ (l : List ι) (g : HeatmapData),
      (∀ i ∈ l, row i < g.rowCount ∧ col i < g.columnCount) →
      gridSum (l.foldl (fun g i => addCell g (row i) (col i) (val i)) g) =
        gridSum g + (l.map val).sum := by
  intro l
  induction l with
  | nil => intro g _; simp
  | cons i rest ih =>
    intro g hb
    have hi := hb i (List.mem_cons_self ..)
    rw [List.foldl_cons]
    have hrest : ∀ j ∈ rest, row j < (addCell g (row i) (col i) (val i)).rowCount ∧
        col j < (addCell g (row i) (col i) (val i)).columnCount := by
      intro j hj
      rw [addCell_rowCount, addCell_columnCount]
      exact hb j (List.mem_cons_of_mem _ hj)
    rw [ih (addCell g (row i) (col i) (val i)) hrest]
    rw [gridSum_addCell g (val i) hi.1 hi.2]
    rw [List.map_cons, List.sum_cons]
    ring

theorem range_map_getD : ∀ l : List ℚ,
    (List.range l.length).map (fun i => l.getD i 0) = l := by
  intro l
  induction l with
  | nil => rfl
  | cons a rest ih =>
    rw [List.length_cons, List.range_succ_eq_map, List.map_cons, List.map_map]
    rw [List.getD_cons_zero]
    congr 1

theorem gridSum_populate_compressed (bins : List QBin) (valid : QRecord → Bool) :
    ∀ (records : List QRecord) (g : HeatmapData),
      (∀ rec ∈ records, valid rec = true →
        rec.cycle - 1 < g.rowCount ∧ rec.hist.length = bins.length) →
      (∀ b ∈ bins, b.value - 1 < g.columnCount) →
      gridSum (populate_heatmap_from_compressed bins valid records g) =
        gridSum g + ((records.filter valid).map (fun rec => rec.hist.sum)).sum := by
  intro records
  induction records with
  | nil => intro g _ _; simp [populate_heatmap_from_compressed]
  | cons rec rest ih =>
    intro g hrec hbins
    unfold populate_heatmap_from_compressed at ih ⊢
    rw [List.foldl_cons, List.filter_cons]
    by_cases hv : valid rec = true
    · rw [if_pos hv]
      simp only [hv, if_true]
      have hre := hrec rec (List.mem_cons_self ..) hv
      set g1 := (List.range bins.length).foldl (fun g bi =>
        addCell g (rec.cycle - 1) ((bins.getD bi ⟨0, 0, 0⟩).value - 1) (rec.hist.getD bi 0)) g
        with hg1
      have hcounts := foldl_addCell_counts (fun _ => rec.cycle - 1)
        (fun bi => (bins.getD bi ⟨0, 0, 0⟩).value - 1) (fun bi => rec.hist.getD bi 0)
        (List.range bins.length) g
      have hrest : ∀ x ∈ rest, valid x = true →
          x.cycle - 1 < g1.rowCount ∧ x.hist.length = bins.length := by
        intro x hx hvx
        rw [hg1, hcounts.1]
        exact hrec x (List.mem_cons_of_mem _ hx) hvx
      have hbins1 : ∀ b ∈ bins, b.value - 1 < g1.columnCount := by
        intro b hbmem
        rw [hg1, hcounts.2]
        exact hbins b hbmem
      rw [ih g1 hrest hbins1]
      have hg1sum : gridSum g1 = gridSum g + rec.hist.sum := by
        have hbnd : ∀ bi ∈ List.range bins.length,
            (fun (_ : Nat) => rec.cycle - 1) bi < g.rowCount ∧
            (fun bi => (bins.getD bi ⟨0, 0, 0⟩).value - 1) bi < g.columnCount := by
          intro bi hbi
          refine ⟨hre.1, ?_⟩
          have hlt : bi < bins.length := List.mem_range.mp hbi
          exact hbins _ (by rw [List.getD_eq_getElem bins _ hlt]; exact List.getElem_mem hlt)
        rw [hg1]
        rw [gridSum_foldl_addCell (fun _ => rec.cycle - 1)
          (fun bi => (bins.getD bi ⟨0, 0, 0⟩).value - 1) (fun bi => rec.hist.getD bi 0)
          (List.range bins.length) g hbnd]
        congr 1
        rw [← hre.2, range_map_getD rec.hist]
      rw [hg1sum, List.map_cons, List.sum_cons]
      ring
    · rw [if_neg hv]
      simp only [hv, if_false]
      exact ih g (fun x hx hvx => hrec x (List.mem_cons_of_mem _ hx) hvx) hbins

theorem gridSum_populate_uncompressed (valid : QRecord → Bool) :
    ∀ (records : List QRecord) (g : HeatmapData),
      (∀ rec ∈ records, valid rec = true →
        rec.cycle - 1 < g.rowCount ∧ rec.hist.length ≤ g.columnCount) →
      gridSum (populate_heatmap_from_uncompressed valid records g) =
        gridSum g + ((records.filter valid).map (fun rec => rec.hist.sum)).sum := by
  intro records
  induction records with
  | nil => intro g _; simp [populate_heatmap_from_uncompressed]
  | cons rec rest ih =>
    intro g hrec
    unfold populate_heatmap_from_uncompressed at ih ⊢
    rw [List.foldl_cons, List.filter_cons]
    by_cases hv : valid rec = true
    · rw [if_pos hv]
      simp only [hv, if_true]
      have hre := hrec rec (List.mem_cons_self ..) hv
      set g1 := (List.range rec.hist.length).foldl (fun g bi =>
        addCell g (rec.cycle - 1) bi (rec.hist.getD bi 0)) g with hg1
      have hcounts := foldl_addCell_counts (fun _ => rec.cycle - 1)
        (fun bi => bi) (fun bi => rec.hist.getD bi 0) (List.range rec.hist.length) g
      have hrest : ∀ x ∈ rest, valid x = true →
          x.cycle - 1 < g1.rowCount ∧ x.hist.length ≤ g1.columnCount := by
        intro x hx hvx
        rw [hg1, hcounts.1, hcounts.2]
        exact hrec x (List.mem_cons_of_mem _ hx) hvx
      rw [ih g1 hrest]
      have hg1sum : gridSum g1 = gridSum g + rec.hist.sum := by
        have hbnd : ∀ bi ∈ List.range rec.hist.length,
            (fun (_ : Nat) => rec.cycle - 1) bi < g.rowCount ∧
            (fun bi => bi) bi < g.columnCount :=
          fun bi hbi => ⟨hre.1, lt_of_lt_of_le (List.mem_range.mp hbi) hre.2⟩
        rw [hg1]
        rw [gridSum_foldl_addCell (fun _ => rec.cycle - 1) (fun bi => bi)
          (fun bi => rec.hist.getD bi 0) (List.range rec.hist.length) g hbnd]
        congr 1
        rw [range_map_getD rec.hist]
      rw [hg1sum, List.map_cons, List.sum_cons]
      ring
    · rw [if_neg hv]
      simp only [hv, if_false]
      exact ih g (fun x hx hvx => hrec x (List.mem_cons_of_mem _ hx) hvx)

/-- C4: the heatmap fold conserves counts: starting from an all-zero grid
of sufficient size, the sum over all grid cells after the fold (in either
encoding) equals the sum of `qscore_hist` over all histogram indices of
all records passing `valid_tile`. -/
theorem populate_fold_conservation (ms : QMetricSet) (valid : QRecord → Bool) (g : HeatmapData)
    (hzero : ∀ r c, r < g.rowCount → c < g.columnCount → g.cell r c = 0)
    (hcyc : ∀ rec ∈ ms.records, valid rec = true → rec.cycle - 1 < g.rowCount)
    (hcomp : ms.compressed = true →
      (∀ rec ∈ ms.records, valid rec = true → rec.hist.length = ms.bins.length) ∧
      (∀ b ∈ ms.bins, b.value - 1 < g.columnCount))
    (huncomp : ms.compressed = false →
      ∀ rec ∈ ms.records, valid rec = true → rec.hist.length ≤ g.columnCount) :
    gridSum (populate_fold ms valid g) =
      ((ms.records.filter valid).map (fun rec => rec.hist.sum)).sum := by
  have h0 : gridSum g = 0 := by
    unfold gridSum
    apply Finset.sum_eq_zero
    intro r hr
    apply Finset.sum_eq_zero
    intro c hc
    exact hzero r c (Finset.mem_range.mp hr) (Finset.mem_range.mp hc)
  unfold populate_fold
  cases hm : ms.compressed with
  | true =>
    rw [if_pos rfl]
    rw [gridSum_populate_compressed ms.bins valid ms.records g
      (fun rec hrec hv => ⟨hcyc rec hrec hv, ((hcomp hm).1) rec hrec hv⟩)
      ((hcomp hm).2)]
    rw [h0, zero_add]
  | false =>
    rw [if_neg (by simp)]
    rw [gridSum_populate_uncompressed valid ms.records g
      (fun rec hrec hv => ⟨hcyc rec hrec hv, huncomp hm rec hrec hv⟩)]
    rw [h0, zero_add]

/-- Compressed q-metric set used by the C4 witness (scenario S4 of the
spec: two cycles, three bins). -/
def w4ms : QMetricSet :=
  ⟨[⟨1, 1, 1, [3, 1, 0]⟩, ⟨1, 1, 2, [0, 2, 1]⟩], 2,
    [⟨1, 10, 5⟩, ⟨11, 20, 15⟩, ⟨21, 30, 25⟩], true⟩

/-- All-zero grid used by the C4 witness. -/
def w4g : HeatmapData := ⟨2, 30, fun _ _ => 0, (0, 0), (0, 0), "", "", ""⟩

theorem populate_fold_conservation_witness :
    gridSum (populate_fold w4ms (fun _ => true) w4g) =
      ((w4ms.records.filter (fun _ => true)).map (fun rec => rec.hist.sum)).sum :=
  populate_fold_conservation w4ms (fun _ => true) w4g
    (fun _ _ _ _ => rfl) (by decide) (by decide) (by decide)

/-- Error kinds raised by the engines: the enum parser's invalid-argument
failure and the `INTEROP_ASSERT` internal-assertion failures. -/
inductive PlotError where
  | invalidArgument
  | assertFailure (msg : String)
deriving DecidableEq

/-- The filter predicate and selector descriptions (`filter_options`,
external to the shown sources): the engines only call the listed
accessors, so the model carries them as fields. -/
structure FilterOptions where
  tileValid : TileRecord → Bool
  qValid : QRecord → Bool
  isSpecificSurface : Bool
  isSpecificRead : MetricType → Bool
  readDescription : String
  surfaceDescription : String
  laneDescription : String

/-- The run-description data used by the engines: flowcell barcode and
surface count. -/
structure RunInfo where
  barcode : String
  surfaceCount : Nat

/-- The run metrics: the tile-metric set, the raw and by-lane q-metric
sets, and the run description. -/
structure RunMetrics where
  tileSet : TileMetricSet
  qSet : QMetricSet
  qByLaneSet : QMetricSet
  runInfo : RunInfo

/-- Modelled from the spec: `heatmap_data.clear()` (plot-data shell,
outside the shown sources) resets the heatmap to its empty state. -/
def clearedHeatmap : HeatmapData := ⟨0, 0, fun _ _ => 0, (0, 0), (0, 0), "", "", ""⟩

/-- Modelled from the spec: `heatmap_data.resize(rows, cols)` (plot-data
shell, outside the shown sources) reallocates the grid as a `rows × cols`
zero matrix. -/
def resizeHeatmap (g : HeatmapData) (rows cols : Nat) : HeatmapData :=
  { g with rowCount := rows, columnCount := cols, cell := fun _ _ => 0 }

/-- Modelled from the spec: `logic::metric::max_qval` (outside the shown
sources) is the maximum score value across all bins of the set. -/
def max_qval (ms : QMetricSet) : Nat := ms.bins.foldl (fun m b => max m b.value) 0

/-- `populate_heatmap` (lines 108-135 of `plot_qscore_heatmap.h`):
resize, assert non-empty dimensions, fold by encoding, normalize, and
re-expand the bins. -/
def populate_heatmap (ms : QMetricSet) (valid : QRecord → Bool) (g : HeatmapData) :
    Except PlotError HeatmapData :=
  let g := resizeHeatmap g ms.maxCycle (max_qval ms)
  if g.rowCount = 0 then Except.error (PlotError.assertFailure "row_count")
  else if g.columnCount = 0 then Except.error (PlotError.assertFailure "column_count")
  else Except.ok (remap_to_bins ms.bins ms.maxCycle (normalize_heatmap (populate_fold ms valid g)))

/-- The title composition of `plot_qscore_heatmap` (lines 170-175):
barcode, a space only when the barcode is nonempty, the lane
description, then unconditionally a space and the surface description
when the flowcell has more than one surface and the selector is
surface-specific. -/
def qscoreHeatmapTitle (barcode laneDesc surfaceDesc : String)
    (surfaceCount : Nat) (isSpecificSurface : Bool) : String :=
  let t := barcode
  let t := if t ≠ "" then t ++ " " else t
  let t := t ++ laneDesc
  if surfaceCount > 1 ∧ isSpecificSurface = true then t ++ " " ++ surfaceDesc else t

/-- The axis/label/title finishing steps of `plot_qscore_heatmap`
(lines 164-175). -/
def finishHeatmap (g : HeatmapData) (info : RunInfo) (opts : FilterOptions) : HeatmapData :=
  { g with
    xRange := (0, (g.rowCount : ℚ))
    yRange := (0, (g.columnCount : ℚ))
    xLabel := "Cycle"
    yLabel := "Q Score"
    title := qscoreHeatmapTitle info.barcode opts.laneDescription opts.surfaceDescription
      info.surfaceCount opts.isSpecificSurface }

/-- `plot_qscore_heatmap` (lines 143-176): clear the output, select the
per-surface or per-lane set (deriving and caching the by-lane set through
the external aggregator `create_q_metrics_by_lane`, taken as the `derive`
parameter, when it is empty), return the cleared heatmap when the
selected set is empty, otherwise populate and finish.  The pair's second
component is the run metrics as left by the call (the by-lane set may
have been cached into them). -/
def plot_qscore_heatmap (derive : QMetricSet → QMetricSet) (m : RunMetrics)
    (opts : FilterOptions) : Except PlotError HeatmapData × RunMetrics :=
  if opts.isSpecificSurface then
    if m.qSet.records.length = 0 then (Except.ok clearedHeatmap, m)
    else
      match populate_heatmap m.qSet opts.qValid clearedHeatmap with
      | Except.error e => (Except.error e, m)
      | Except.ok g => (Except.ok (finishHeatmap g m.runInfo opts), m)
  else
    let m1 := if m.qByLaneSet.records.length = 0
      then { m with qByLaneSet := derive m.qSet } else m
    if m1.qByLaneSet.records.length = 0 then (Except.ok clearedHeatmap, m1)
    else
      match populate_heatmap m1.qByLaneSet opts.qValid clearedHeatmap with
      | Except.error e => (Except.error e, m1)
      | Except.ok g => (Except.ok (finishHeatmap g m1.runInfo opts), m1)

/-- A plot series: title, color, points. -/
structure PlotSeries (P : Type) where
  title : String
  color : String
  pts : List P

/-- The plot-data shell for by-lane plots: series plus axes, labels and
title. -/
structure PlotData (P : Type) where
  series : List (PlotSeries P)
  xRange : ℚ × ℚ
  yRange : ℚ × ℚ
  xLabel : String
  yLabel : String
  title : String

/-- The title composition of `plot_by_lane` (lines 99-110). -/
def byLaneTitle (barcode : String) (surfaceCount : Nat) (opts : FilterOptions)
    (tp : MetricType) : String :=
  let t := barcode
  let t := if opts.isSpecificRead tp then
      (if t ≠ "" then t ++ " " else t) ++ opts.readDescription
    else t
  if surfaceCount > 1 ∧ opts.isSpecificSurface = true then
    (if t ≠ "" then t ++ " " else t) ++ opts.surfaceDescription
  else t

/-- `plot_by_lane` (lines 72-111 of `plot_by_lane.h`).  The external
`auto_scale` is modelled from the spec as a function computing the new
`(x-range, y-range)` pair from the plot data; the candle reduction,
proxy and the `utils::to_description` table are likewise parameters. -/
def plot_by_lane {P : Type} (autoScale : PlotData P → (ℚ × ℚ) × (ℚ × ℚ))
    (cs : List ℚ → ℚ → P) (proxy : TileRecord → MetricType → Option ℚ)
    (toDescription : MetricType → String) (m : RunMetrics) (tp : MetricType)
    (opts : FilterOptions) : PlotData P :=
  let d : PlotData P :=
    ⟨[⟨toDescription tp, "Blue",
        populate_candle_stick_by_lane cs proxy opts.tileValid tp m.tileSet⟩],
      (0, 0), (0, 0), "", "", ""⟩
  let d :=
    if tp = MetricType.clusterCount ∨ tp = MetricType.density then
      { d with series := d.series ++
          [⟨"PF", "DarkGreen",
            populate_candle_stick_by_lane cs proxy opts.tileValid
              (if tp = MetricType.density then MetricType.densityPF
               else MetricType.clusterCountPF) m.tileSet⟩] }
    else d
  let ranges := autoScale d
  let d := { d with xRange := ranges.1, yRange := ranges.2 }
  let d := if tp = MetricType.percentPrephasing ∨ tp = MetricType.percentPhasing then
      { d with yRange := (0, 1) } else d
  let d := { d with xRange := (0, d.xRange.2 + 1) }
  { d with
    xLabel := "Lane"
    yLabel := toDescription tp
    title := byLaneTitle m.runInfo.barcode m.runInfo.surfaceCount opts tp }

/-- The string-form `plot_by_lane` (lines 121-128).  The enum parser
`constants::parse<metric_type>` is modelled from the spec as an
`Option`-returning lookup that fails with an invalid-argument error when
the name is unknown. -/
def plot_by_lane_str {P : Type} (parse : String → Option MetricType)
    (autoScale : PlotData P → (ℚ × ℚ) × (ℚ × ℚ)) (cs : List ℚ → ℚ → P)
    (proxy : TileRecord → MetricType → Option ℚ) (toDescription : MetricType → String)
    (m : RunMetrics) (name : String) (opts : FilterOptions) :
    Except PlotError (PlotData P) :=
  match parse name with
  | none => Except.error PlotError.invalidArgument
  | some tp => Except.ok (plot_by_lane autoScale cs proxy toDescription m tp opts)

/-- Claim-side reference for the C6 title property, following the spec's
words: the components joined by single spaces with empty components
suppressed. -/
def joinNonEmptySpace (parts : List String) : String :=
  String.intercalate " " (parts.filter (fun s => decide (s ≠ "")))

/-- C5: for `PercentPhasing` and `PercentPrephasing` the final y-range of
`plot_by_lane` is exactly `[0, 1]`, for every run metrics, filter
options and whatever ranges the auto-scale padding computes. -/
theorem plot_by_lane_phasing_yrange {P : Type}
    (autoScale : PlotData P → (ℚ × ℚ) × (ℚ × ℚ)) (cs : List ℚ → ℚ → P)
    (proxy : TileRecord → MetricType → Option ℚ) (toDescription : MetricType → String)
    (m : RunMetrics) (opts : FilterOptions) :
    (plot_by_lane autoScale cs proxy toDescription m MetricType.percentPhasing opts).yRange
        = (0, 1) ∧
    (plot_by_lane autoScale cs proxy toDescription m MetricType.percentPrephasing opts).yRange
        = (0, 1) := by
  constructor <;> simp [plot_by_lane]

/-- C6 counterexample: with barcode "FC123", an empty lane description
and no surface component, the code yields the title "FC123 " with a
trailing separator, while joining the non-empty components with single
spaces (as the claim states) yields "FC123". -/
theorem qscoreHeatmapTitle_counterexample :
    qscoreHeatmapTitle "FC123" "" "S2" 1 false ≠ joinNonEmptySpace ["FC123", ""] := by
  decide

/-- C6 amended: the heatmap title is the barcode, then a space inserted
only when the barcode is nonempty, then the lane description, then — when
the flowcell has more than one surface and the selector is
surface-specific — an unconditional space and the surface description;
only the separator after an empty barcode is suppressed, so an empty lane
description after a nonempty barcode, or an appended surface description
after empty preceding components, leaves a stray space. -/
theorem qscoreHeatmapTitle_formula (barcode laneDesc surfaceDesc : String)
    (surfaceCount : Nat) (isSpec : Bool) :
    qscoreHeatmapTitle barcode laneDesc surfaceDesc surfaceCount isSpec =
      (let base := (if barcode = "" then "" else barcode ++ " ") ++ laneDesc
       if surfaceCount > 1 ∧ isSpec = true then base ++ " " ++ surfaceDesc else base) := by
  unfold qscoreHeatmapTitle
  by_cases hb : barcode = "" <;> simp [hb]

/-- C7: when the selected q-metric set — the per-surface set when the
selector is surface-specific, otherwise the per-lane set after attempting
derivation from the raw set — is empty, `plot_qscore_heatmap` returns
normally with the heatmap in its cleared state and raises no error. -/
theorem plot_qscore_heatmap_empty_returns_cleared (derive : QMetricSet → QMetricSet)
    (m : RunMetrics) (opts : FilterOptions)
    (hempty : (if opts.isSpecificSurface then m.qSet
      else if m.qByLaneSet.records.length = 0 then derive m.qSet
      else m.qByLaneSet).records.length = 0) :
    (plot_qscore_heatmap derive m opts).1 = Except.ok clearedHeatmap := by
  unfold plot_qscore_heatmap
  by_cases hs : opts.isSpecificSurface = true
  · rw [if_pos hs] at hempty
    simp [hs, hempty]
  · rw [if_neg hs] at hempty
    by_cases hd : m.qByLaneSet.records.length = 0
    · rw [if_pos hd] at hempty
      simp [hs, hd, hempty]
    · rw [if_neg hd] at hempty
      exact absurd hempty hd

/-- Empty q-metric sets and a trivial deriver for the C7 witness. -/
def w7qset : QMetricSet := ⟨[], 0, [], false⟩

/-- Run metrics with empty q-metric sets for the C7 witness. -/
def w7m : RunMetrics := ⟨⟨[], 0⟩, w7qset, w7qset, ⟨"FC", 1⟩⟩

/-- Filter options for the C7 witness. -/
def w7opts : FilterOptions :=
  ⟨fun _ => true, fun _ => true, false, fun _ => false, "", "", "All Lanes"⟩

theorem plot_qscore_heatmap_empty_returns_cleared_witness :
    (plot_qscore_heatmap (fun _ => w7qset) w7m w7opts).1 = Except.ok clearedHeatmap :=
  plot_qscore_heatmap_empty_returns_cleared (fun _ => w7qset) w7m w7opts rfl

/-- C9: running an engine twice on the same inputs yields identical
outputs.  The second `plot_qscore_heatmap` call, made on the run metrics
as the first call left them (the first call may have cached the derived
by-lane q-metric set into them), returns the same heatmap result; the
q-metric sets it reads are unchanged or rederive identically.
`plot_by_lane` borrows its inputs immutably, so a repeated call is the
same application of the same function and returns equal plot data. -/
theorem engines_repeatable {P : Type} (derive : QMetricSet → QMetricSet)
    (m : RunMetrics) (opts : FilterOptions)
    (autoScale : PlotData P → (ℚ × ℚ) × (ℚ × ℚ)) (cs : List ℚ → ℚ → P)
    (proxy : TileRecord → MetricType → Option ℚ) (toDescription : MetricType → String)
    (tp : MetricType) :
    (plot_qscore_heatmap derive (plot_qscore_heatmap derive m opts).2 opts).1 =
      (plot_qscore_heatmap derive m opts).1 ∧
    plot_by_lane autoScale cs proxy toDescription m tp opts =
      plot_by_lane autoScale cs proxy toDescription m tp opts := by
  refine ⟨?_, rfl⟩
  unfold plot_qscore_heatmap
  by_cases hs : opts.isSpecificSurface = true
  · by_cases hq : m.qSet.records.length = 0
    · simp [hs, hq]
    · cases hpop : populate_heatmap m.qSet opts.qValid clearedHeatmap with
      | error e => simp [hs, hq, hpop]
      | ok g => simp [hs, hq, hpop]
  · by_cases hd : m.qByLaneSet.records.length = 0
    · by_cases hd2 : (derive m.qSet).records.length = 0
      · simp [hs, hd, hd2]
      · cases hpop : populate_heatmap (derive m.qSet) opts.qValid clearedHeatmap with
        | error e => simp [hs, hd, hd2, hpop]
        | ok g => simp [hs, hd, hd2, hpop]
    · cases hpop : populate_heatmap m.qByLaneSet opts.qValid clearedHeatmap with
      | error e => simp [hs, hd, hpop]
      | ok g => simp [hs, hd, hpop]

theorem foldl_bucketStep_skip (valid : TileRecord → Bool)
    (proxy : TileRecord → MetricType → Option ℚ) (tp : MetricType) :
    ∀ (rs : List TileRecord) (bs : List (List ℚ)),
      (∀ r ∈ rs, valid r = true → proxy r tp = none) →
      rs.foldl (bucketStep valid proxy tp) bs = bs := by
  intro rs
  induction rs with
  | nil => intro bs _; rfl
  | cons r rest ih =>
    intro bs h
    rw [List.foldl_cons]
    have hstep : bucketStep valid proxy tp bs r = bs := by
      by_cases hv : valid r = true
      · exact bucketStep_skip_nan hv (h r (List.mem_cons_self ..) hv)
      · exact bucketStep_skip_invalid (by simpa using hv)
    rw [hstep]
    exact ih bs (fun x hx => h x (List.mem_cons_of_mem _ hx))

theorem emitPointsFrom_replicate {P : Type} (cs : List ℚ → ℚ → P) :
    ∀ (n k : Nat), emitPointsFrom cs k (List.replicate n []) = [] := by
  intro n
  induction n with
  | zero => intro k; rfl
  | succ n ih =>
    intro k
    rw [List.replicate_succ, emitPointsFrom]
    simp only [List.isEmpty_nil, if_true]
    exact ih (k + 1)

theorem populate_candle_stick_by_lane_no_data {P : Type} (cs : List ℚ → ℚ → P)
    (proxy : TileRecord → MetricType → Option ℚ) (valid : TileRecord → Bool)
    (tp : MetricType) (ms : TileMetricSet)
    (h : ∀ r ∈ ms.records, valid r = true → proxy r tp = none) :
    populate_candle_stick_by_lane cs proxy valid tp ms = [] := by
  unfold populate_candle_stick_by_lane laneBuckets
  rw [foldl_bucketStep_skip valid proxy tp ms.records (List.replicate ms.maxLane []) h]
  exact emitPointsFrom_replicate cs ms.maxLane 1

theorem plot_by_lane_series {P : Type} (autoScale : PlotData P → (ℚ × ℚ) × (ℚ × ℚ))
    (cs : List ℚ → ℚ → P) (proxy : TileRecord → MetricType → Option ℚ)
    (toDescription : MetricType → String) (m : RunMetrics) (tp : MetricType)
    (opts : FilterOptions) :
    (plot_by_lane autoScale cs proxy toDescription m tp opts).series =
      (if tp = MetricType.clusterCount ∨ tp = MetricType.density then
        [⟨toDescription tp, "Blue",
            populate_candle_stick_by_lane cs proxy opts.tileValid tp m.tileSet⟩,
          ⟨"PF", "DarkGreen",
            populate_candle_stick_by_lane cs proxy opts.tileValid
              (if tp = MetricType.density then MetricType.densityPF
               else MetricType.clusterCountPF) m.tileSet⟩]
      else
        [⟨toDescription tp, "Blue",
            populate_candle_stick_by_lane cs proxy opts.tileValid tp m.tileSet⟩]) := by
  unfold plot_by_lane
  by_cases h2 : tp = MetricType.clusterCount ∨ tp = MetricType.density <;>
    by_cases h3 : tp = MetricType.percentPrephasing ∨ tp = MetricType.percentPhasing <;>
    simp [h2, h3]

/-- C8: the string-form `plot_by_lane` fails — with the enum parser's
invalid-argument error — exactly when the metric name is unknown to the
parser; for a known name over an empty or an all-NaN tile-metric set it
does not fail and produces an empty but well-formed plot data: the series
are present and every series has zero points. -/
theorem plot_by_lane_str_failure_semantics {P : Type}
    (parse : String → Option MetricType)
    (autoScale : PlotData P → (ℚ × ℚ) × (ℚ × ℚ)) (cs : List ℚ → ℚ → P)
    (proxy : TileRecord → MetricType → Option ℚ) (toDescription : MetricType → String)
    (m : RunMetrics) (name : String) (opts : FilterOptions) :
    (plot_by_lane_str parse autoScale cs proxy toDescription m name opts =
        Except.error PlotError.invalidArgument ↔ parse name = none) ∧
    (∀ tp, parse name = some tp →
      (m.tileSet.records = [] ∨ ∀ r ∈ m.tileSet.records, ∀ t, proxy r t = none) →
      ∃ d, plot_by_lane_str parse autoScale cs proxy toDescription m name opts =
          Except.ok d ∧ d.series ≠ [] ∧ ∀ s ∈ d.series, s.pts = []) := by
  constructor
  · cases hp : parse name with
    | none => simp [plot_by_lane_str, hp]
    | some tp => simp [plot_by_lane_str, hp]
  · intro tp hp hnodata
    have hnan : ∀ t, ∀ r ∈ m.tileSet.records, opts.tileValid r = true → proxy r t = none := by
      intro t r hr _
      rcases hnodata with hemp | hall
      · rw [hemp] at hr; cases hr
      · exact hall r hr t
    have hpop : ∀ t, populate_candle_stick_by_lane cs proxy opts.tileValid t m.tileSet = [] :=
      fun t => populate_candle_stick_by_lane_no_data cs proxy opts.tileValid t m.tileSet
        (fun r hr hv => hnan t r hr hv)
    refine ⟨plot_by_lane autoScale cs proxy toDescription m tp opts, ?_, ?_, ?_⟩
    · simp [plot_by_lane_str, hp]
    · rw [plot_by_lane_series]
      by_cases h2 : tp = MetricType.clusterCount ∨ tp = MetricType.density <;>
        simp [h2]
    · intro s hs
      rw [plot_by_lane_series] at hs
      by_cases h2 : tp = MetricType.clusterCount ∨ tp = MetricType.density
      · simp only [h2, if_true] at hs
        rcases List.mem_cons.mp hs with hseq | hs2
        · rw [hseq]; exact hpop tp
        · rcases List.mem_cons.mp hs2 with hseq | hnil
          · rw [hseq]; exact hpop _
          · cases hnil
      · simp only [h2, if_false] at hs
        rcases List.mem_cons.mp hs with hseq | hnil
        · rw [hseq]; exact hpop tp
        · cases hnil

/-- Enum-parser table for the C8 witness: only "Density" is known. -/
def w8parse : String → Option MetricType :=
  fun s => if s = "Density" then some MetricType.density else none

/-- Run metrics with an empty tile-metric set for the C8 witness. -/
def w8m : RunMetrics := ⟨⟨[], 0⟩, ⟨[], 0, [], false⟩, ⟨[], 0, [], false⟩, ⟨"FC", 1⟩⟩

/-- Filter options for the C8 witness. -/
def w8opts : FilterOptions :=
  ⟨fun _ => true, fun _ => true, false, fun _ => false, "", "", ""⟩

theorem plot_by_lane_str_failure_semantics_witness :
    (plot_by_lane_str w8parse (fun _ => ((0, 0), (0, 0))) (fun _ x => x)
        (fun _ _ => (none : Option ℚ)) (fun _ => "Density") w8m "Bogus" w8opts =
          Except.error PlotError.invalidArgument ↔ w8parse "Bogus" = none) ∧
     ∃ d, plot_by_lane_str w8parse (fun _ => ((0, 0), (0, 0))) (fun _ x => x)
        (fun _ _ => (none : Option ℚ)) (fun _ => "Density") w8m "Density" w8opts =
          Except.ok d ∧ d.series ≠ [] ∧ ∀ s ∈ d.series, s.pts = [] :=
  ⟨(plot_by_lane_str_failure_semantics w8parse (fun _ => ((0, 0), (0, 0))) (fun _ x => x)
      (fun _ _ => (none : Option ℚ)) (fun _ => "Density") w8m "Bogus" w8opts).1,
   (plot_by_lane_str_failure_semantics w8parse (fun _ => ((0, 0), (0, 0))) (fun _ x => x)
      (fun _ _ => (none : Option ℚ)) (fun _ => "Density") w8m "Density" w8opts).2
      MetricType.density (by simp [w8parse]) (Or.inl rfl)⟩

end Interop
